import Mathlib

/-!
Shallow embedding of the qtask cooperative tick-driven scheduler
(src/qtask.c, src/qtask.h).

Task objects live in user memory and are referenced by pointer in C; here
a task object is addressed by a `Nat` object identity, and the whole task
memory is a total map `Nat → QTaskObj`.  The scheduler's two circular
intrusive lists are modelled as Lean lists of object identities, ordered
from the sentinel's `next` onwards (C inserts at the head, so `_list_insert`
is `cons`).  An intrusive node sits in at most one list, so `_list_remove`
erases the identity from both lists (a no-op on a list that does not hold
it, matching the self-healed node).  Machine integers: `size_t` fields are
`Nat` (the only decrement in the code is guarded by `timer > 0`, so no
wraparound occurs), the 16-bit id is a `Nat` reduced `% 65536` at every
step exactly as the `uint16_t` accumulator truncates, statuses are `Int`.
Callbacks are opaque: a task's `handle` is an abstract code and the
execute pass returns the trace of invoked handles.
-/

/-- `QTaskObj` from qtask.h: one task descriptor.  `name` is the byte
string of the task's name, `handle` the opaque callback code. -/
structure QTaskObj where
  name : List Nat
  id : Nat
  isready : Bool
  handle : Nat
  timer : Nat
  period : Nat
  rtime : Nat
  rtick : Nat
deriving Repr, DecidableEq

/-- `QTaskSched` from qtask.h: the heap of task objects, the two intrusive
lists (as lists of object identities) and the `run_task` reference. -/
structure QTaskSched where
  heap : Nat → QTaskObj
  task_list : List Nat
  suspend_list : List Nat
  run_task : Option Nat

/-- Pointwise update of the task heap at one object identity. -/
def updateHeap (h : Nat → QTaskObj) (p : Nat) (t : QTaskObj) : Nat → QTaskObj :=
  fun q => if q = p then t else h q

/-- `_id_calc` from qtask.c: DJB2-style rolling hash; the `uint16_t`
accumulator truncates `hash * 33 + c` modulo 2^16 at every step. -/
def _id_calc (name : List Nat) : Nat :=
  name.foldl (fun h c => (h * 33 + c) % 65536) 5381

/-- `_qtask_isexist` from qtask.c: does any task on the active list have
the same 16-bit id as `p`? -/
def _qtask_isexist (s : QTaskSched) (p : Nat) : Bool :=
  s.task_list.any fun q => (s.heap q).id == (s.heap p).id

/-- `_qdtask_isexsit` from qtask.c: same scan over the suspended list. -/
def _qdtask_isexsit (s : QTaskSched) (p : Nat) : Bool :=
  s.suspend_list.any fun q => (s.heap q).id == (s.heap p).id

/-- `_list_insert` from qtask.c: insert right after the sentinel, i.e. at
the head of the traversal order. -/
def _list_insert (l : List Nat) (p : Nat) : List Nat :=
  p :: l

/-- `_list_remove` from qtask.c: unlink the node from whatever list holds
it (no-op for a self-linked node that is in no list). -/
def _list_remove (l : List Nat) (p : Nat) : List Nat :=
  l.erase p

/-- The field block `task->isready = 0; task->timer = task->period;`
followed by `_list_remove(&task->task_node);` that qtask.c repeats in
`qtask_add`, `qtask_del`, `qtask_suspend` and `qtask_resume`. -/
def resetAndUnlink (s : QTaskSched) (p : Nat) : QTaskSched :=
  { s with
    heap := updateHeap s.heap p
      { s.heap p with isready := false, timer := (s.heap p).period }
    task_list := _list_remove s.task_list p
    suspend_list := _list_remove s.suspend_list p }

/-- The unconditional field initialisation at the top of `qtask_add`. -/
def addInit (name : List Nat) (handle : Nat) (tick : Nat) : QTaskObj :=
  { name := name
    id := _id_calc name
    isready := false
    handle := handle
    timer := tick
    period := tick
    rtime := 0
    rtick := 0 }

/-- `qtask_add` from qtask.c. -/
def qtask_add (s : QTaskSched) (p : Nat) (name : List Nat) (handle : Nat)
    (tick : Nat) : Int × QTaskSched :=
  let s0 : QTaskSched := { s with heap := updateHeap s.heap p (addInit name handle tick) }
  let s1 := if _qdtask_isexsit s0 p then resetAndUnlink s0 p else s0
  if _qtask_isexist s1 p then (1, s1)
  else (0, { s1 with task_list := _list_insert s1.task_list p })

/-- `qtask_del` from qtask.c. -/
def qtask_del (s : QTaskSched) (p : Nat) : Int × QTaskSched :=
  let s1 := if _qtask_isexist s p then resetAndUnlink s p else s
  if _qdtask_isexsit s1 p then (-1, s1)
  else (0, { s1 with suspend_list := _list_insert s1.suspend_list p })

/-- The safe-iterator loop of `qtask_suspend`: walk the remaining active
list looking for the id; the body returns as soon as a node matches. -/
def qtask_suspend_go (s : QTaskSched) (id : Nat) : List Nat → Int × QTaskSched
  | [] => (-1, s)
  | p :: rest =>
    if (s.heap p).id = id then
      let s1 := if _qtask_isexist s p then resetAndUnlink s p else s
      if _qdtask_isexsit s1 p then (-1, s1)
      else (0, { s1 with suspend_list := _list_insert s1.suspend_list p })
    else qtask_suspend_go s id rest

/-- `qtask_suspend` from qtask.c. -/
def qtask_suspend (s : QTaskSched) (name : List Nat) : Int × QTaskSched :=
  qtask_suspend_go s (_id_calc name) s.task_list

/-- The safe-iterator loop of `qtask_resume`: on a match the task is moved,
but when the target id is still present on the active list the loop falls
through and keeps scanning the (mutated) state. -/
def qtask_resume_go (s : QTaskSched) (id : Nat) : List Nat → Int × QTaskSched
  | [] => (-1, s)
  | p :: rest =>
    if (s.heap p).id = id then
      let s1 := if _qdtask_isexsit s p then resetAndUnlink s p else s
      if _qtask_isexist s1 p then qtask_resume_go s1 id rest
      else (0, { s1 with task_list := _list_insert s1.task_list p })
    else qtask_resume_go s id rest

/-- `qtask_resume` from qtask.c. -/
def qtask_resume (s : QTaskSched) (name : List Nat) : Int × QTaskSched :=
  qtask_resume_go s (_id_calc name) s.suspend_list

/-- The scan of `qtask_exec`: run every ready task's callback (recorded in
the returned trace), snapshot `rtime := rtick`, clear readiness, zero
`rtick`. -/
def qtask_exec_go (h : Nat → QTaskObj) : List Nat → (Nat → QTaskObj) × List Nat
  | [] => (h, [])
  | p :: rest =>
    let t := h p
    if t.isready then
      let h1 := updateHeap h p { t with rtime := t.rtick, isready := false, rtick := 0 }
      let r := qtask_exec_go h1 rest
      (r.1, t.handle :: r.2)
    else qtask_exec_go h rest

/-- `qtask_exec` from qtask.c, returning the new state and the trace of
invoked callback handles in visit order. -/
def qtask_exec (s : QTaskSched) : QTaskSched × List Nat :=
  let r := qtask_exec_go s.heap s.task_list
  ({ s with heap := r.1 }, r.2)

/-- The body of the `qtask_tick_increase` loop for one visited node: if
`timer > 0` decrement it; when the decrement reaches zero mark the task
ready, record it in `run_task`, restore `timer = period`. -/
def tickVisit (h : Nat → QTaskObj) (r : Option Nat) (p : Nat) :
    (Nat → QTaskObj) × Option Nat :=
  let t := h p
  if 0 < t.timer then
    if t.timer - 1 = 0 then
      (updateHeap h p { t with isready := true, timer := t.period }, some p)
    else
      (updateHeap h p { t with timer := t.timer - 1 }, r)
  else (h, r)

/-- The loop of `qtask_tick_increase`: `count` is incremented after each
processed node and the pass returns once `count > 1000`. -/
def qtask_tick_go (h : Nat → QTaskObj) (r : Option Nat) (count : Nat) :
    List Nat → (Nat → QTaskObj) × Option Nat
  | [] => (h, r)
  | p :: rest =>
    let st := tickVisit h r p
    if 1000 < count + 1 then st
    else qtask_tick_go st.1 st.2 (count + 1) rest

/-- `qtask_tick_increase` from qtask.c (the mid-scan null checks of the C
code can never fire in this pointer-free model). -/
def qtask_tick_increase (s : QTaskSched) : QTaskSched :=
  let r := qtask_tick_go s.heap s.run_task 0 s.task_list
  { s with heap := r.1, run_task := r.2 }

/-- `qtask_runtime_increase` from qtask.c. -/
def qtask_runtime_increase (s : QTaskSched) : QTaskSched :=
  { s with heap := fun q =>
      if q ∈ s.task_list ∧ (s.heap q).isready then
        { s.heap q with rtick := (s.heap q).rtick + 1 }
      else s.heap q }

/-- `qtask_sleep` from qtask.c.  The body is
`if(!sched->run_task) { sched->run_task->timer = tick; }`: the guarded
branch dereferences the null `run_task` (modelled as `none`), and when
`run_task` is set the function does nothing at all. -/
def qtask_sleep (s : QTaskSched) (tick : Nat) : Option QTaskSched :=
  match s.run_task with
  | none => none
  | some _ => some s

/-- `qtask_tick_set` from qtask.c: overwrite `period` only. -/
def qtask_tick_set (t : QTaskObj) (tick : Nat) : QTaskObj :=
  { t with period := tick }

/-- `qtask_sched_init` from qtask.c: both lists empty.  The C code leaves
`run_task` and the heap untouched, so both are parameters. -/
def qtask_sched_init (h : Nat → QTaskObj) (r : Option Nat) : QTaskSched :=
  { heap := h, task_list := [], suspend_list := [], run_task := r }

/-! ## Statement-side vocabulary -/

/-- The per-task effect of one tick-advance visit: a positive timer is
decremented, and exactly when the decrement reaches zero the task becomes
ready and the timer is restored to the period; a zero timer is untouched. -/
def tickStep (t : QTaskObj) : QTaskObj :=
  if 0 < t.timer then
    if t.timer - 1 = 0 then { t with isready := true, timer := t.period }
    else { t with timer := t.timer - 1 }
  else t

/-- The `run_task` reference produced by one tick-advance pass over `l`:
the last visited task whose timer stood at 1 (so its decrement fired), or
the previous reference when none fired. -/
def tickRun (h : Nat → QTaskObj) (r : Option Nat) (l : List Nat) : Option Nat :=
  l.foldl (fun acc p => if (h p).timer = 1 then some p else acc) r

/-- The tick-advance loop with the iteration cap stripped; used to relate
the capped loop to a plain scan of a list prefix. -/
def tickGoAll (h : Nat → QTaskObj) (r : Option Nat) :
    List Nat → (Nat → QTaskObj) × Option Nat
  | [] => (h, r)
  | p :: rest => tickGoAll (tickVisit h r p).1 (tickVisit h r p).2 rest

/-- A task object is registered in the scheduler when one of the two lists
holds it. -/
def listed (s : QTaskSched) (p : Nat) : Prop :=
  p ∈ s.task_list ∨ p ∈ s.suspend_list

/-- Membership in the two lists is exclusive: no object identity occurs
twice across the active and suspended lists. -/
def exclusive (s : QTaskSched) : Prop :=
  (s.task_list ++ s.suspend_list).Nodup

/-- All registered tasks carry pairwise distinct 16-bit ids. -/
def idsDistinct (s : QTaskSched) : Prop :=
  ∀ p q, listed s p → listed s q → (s.heap p).id = (s.heap q).id → p = q

/-- Every registered task's countdown is bounded by its period. -/
def timerInv (s : QTaskSched) : Prop :=
  ∀ p, listed s p → (s.heap p).timer ≤ (s.heap p).period

/-! ## Concrete states used by witnesses and counterexamples -/

/-- A dormant task object filling the unused part of the heap. -/
def blankObj : QTaskObj := addInit [] 0 0

/-- The all-blank task heap. -/
def blankHeap : Nat → QTaskObj := fun _ => blankObj

/-- The freshly initialised scheduler over the blank heap. -/
def emptySched : QTaskSched := qtask_sched_init blankHeap none

/-- One task (identity 1, name "a", period 3) registered in the fresh
scheduler. -/
def oneTaskSched : QTaskSched := (qtask_add emptySched 1 [97] 5 3).2

/-- `oneTaskSched` after one, two and three tick-advance calls. -/
def tickOnce : QTaskSched := qtask_tick_increase oneTaskSched

def tickTwice : QTaskSched := qtask_tick_increase tickOnce

def tickThrice : QTaskSched := qtask_tick_increase tickTwice

/-- The two names "az" and "bY": distinct byte strings whose DJB2-style
16-bit ids collide (both hash to 30528). -/
def nameAZ : List Nat := [97, 122]

def nameBY : List Nat := [98, 89]

/-- Collision trace, step 1: register task object 1 under "az". -/
def colSched1 : QTaskSched := (qtask_add emptySched 1 nameAZ 7 3).2

/-- Collision trace, step 2: `qtask_del` moves object 1 to the suspended
list. -/
def colSched2 : QTaskSched := (qtask_del colSched1 1).2

/-- Collision trace, step 3: register object 2 under the colliding name
"bY"; object 1 stays suspended, object 2 goes active. -/
def colSched3 : QTaskSched := (qtask_add colSched2 2 nameBY 8 3).2

/-- Collision trace, step 4: `qtask_resume "az"` unlinks object 1 from the
suspended list, then refuses to insert it because the active list already
holds the colliding object 2 — object 1 is now in neither list. -/
def colSched4 : QTaskSched := (qtask_resume colSched3 nameAZ).2

/-- Collision trace, step 5: suspend "bY", parking object 2. -/
def colSched5 : QTaskSched := (qtask_suspend colSched4 nameBY).2

/-- A single-task state used to instantiate the general theorems. -/
def probeObj : QTaskObj :=
  { name := [], id := 0, isready := true, handle := 4, timer := 5, period := 9
    rtime := 0, rtick := 6 }

def probeSched : QTaskSched :=
  { heap := updateHeap blankHeap 1 probeObj
    task_list := [1]
    suspend_list := []
    run_task := none }

/-- An oversized active list: 1002 distinct task objects, every one with
timer 5 and period 9. -/
def bigObj : QTaskObj :=
  { name := [], id := 0, isready := false, handle := 0, timer := 5, period := 9
    rtime := 0, rtick := 0 }

def bigSched : QTaskSched :=
  { heap := fun _ => bigObj
    task_list := List.range 1002
    suspend_list := []
    run_task := none }

/-- A state in which tick-advance has just marked task 1 ready, so
`run_task` points at it; its timer stands at 7. -/
def sleepObj : QTaskObj :=
  { name := [97], id := _id_calc [97], isready := true, handle := 5, timer := 7
    period := 7, rtime := 0, rtick := 0 }

def sleepSched : QTaskSched :=
  { heap := updateHeap blankHeap 1 sleepObj
    task_list := [1]
    suspend_list := []
    run_task := some 1 }

/-- A task object with `timer = period = 5`, fed to `qtask_tick_set`. -/
def boundObj : QTaskObj := addInit [97] 5 5

/-! ## Basic lemmas -/

theorem updateHeap_same (h : Nat → QTaskObj) (p : Nat) (t : QTaskObj) :
    updateHeap h p t p = t := by
  simp [updateHeap]

theorem updateHeap_ne (h : Nat → QTaskObj) (p : Nat) (t : QTaskObj) {q : Nat}
    (hq : q ≠ p) : updateHeap h p t q = h q := by
  simp [updateHeap, hq]

theorem isexist_iff (s : QTaskSched) (p : Nat) :
    _qtask_isexist s p = true ↔ ∃ q ∈ s.task_list, (s.heap q).id = (s.heap p).id := by
  simp [_qtask_isexist, List.any_eq_true]

theorem dexist_iff (s : QTaskSched) (p : Nat) :
    _qdtask_isexsit s p = true ↔ ∃ q ∈ s.suspend_list, (s.heap q).id = (s.heap p).id := by
  simp [_qdtask_isexsit, List.any_eq_true]

theorem isexist_of_mem {s : QTaskSched} {p : Nat} (hp : p ∈ s.task_list) :
    _qtask_isexist s p = true :=
  (isexist_iff s p).2 ⟨p, hp, rfl⟩

theorem dexist_of_mem {s : QTaskSched} {p : Nat} (hp : p ∈ s.suspend_list) :
    _qdtask_isexsit s p = true :=
  (dexist_iff s p).2 ⟨p, hp, rfl⟩

theorem not_mem_of_isexist_false {s : QTaskSched} {p : Nat}
    (h : _qtask_isexist s p = false) : p ∉ s.task_list := fun hp => by
  simp [isexist_of_mem hp] at h

theorem not_mem_of_dexist_false {s : QTaskSched} {p : Nat}
    (h : _qdtask_isexsit s p = false) : p ∉ s.suspend_list := fun hp => by
  simp [dexist_of_mem hp] at h

theorem resetAndUnlink_heap (s : QTaskSched) (p q : Nat) :
    (resetAndUnlink s p).heap q =
      if q = p then { s.heap p with isready := false, timer := (s.heap p).period }
      else s.heap q := by
  by_cases hq : q = p
  · subst hq; simp [resetAndUnlink, updateHeap]
  · simp [resetAndUnlink, updateHeap, hq]

theorem resetAndUnlink_id (s : QTaskSched) (p q : Nat) :
    ((resetAndUnlink s p).heap q).id = (s.heap q).id := by
  rw [resetAndUnlink_heap]
  by_cases hq : q = p <;> simp [hq]

/-! ## The tick-advance pass -/

theorem tickVisit_heap (h : Nat → QTaskObj) (r : Option Nat) (p x : Nat) :
    (tickVisit h r p).1 x = if x = p then tickStep (h p) else h x := by
  by_cases hx : x = p
  · subst hx
    by_cases h0 : 0 < (h x).timer
    · by_cases h1 : (h x).timer - 1 = 0 <;>
        simp [tickVisit, tickStep, h0, h1, updateHeap]
    · simp [tickVisit, tickStep, h0]
  · by_cases h0 : 0 < (h p).timer
    · by_cases h1 : (h p).timer - 1 = 0 <;>
        simp [tickVisit, updateHeap, h0, h1, hx]
    · simp [tickVisit, h0, hx]

theorem tickVisit_run (h : Nat → QTaskObj) (r : Option Nat) (p : Nat) :
    (tickVisit h r p).2 = if (h p).timer = 1 then some p else r := by
  by_cases h1 : (h p).timer = 1
  · have h0 : 0 < (h p).timer := by omega
    have h2 : (h p).timer - 1 = 0 := by omega
    simp [tickVisit, h0, h2, h1]
  · by_cases h0 : 0 < (h p).timer
    · have h2 : ¬ (h p).timer - 1 = 0 := by omega
      simp [tickVisit, h0, h2, h1]
    · simp [tickVisit, h0, h1]

theorem tick_go_eq_all (l : List Nat) :
    ∀ (h : Nat → QTaskObj) (r : Option Nat) (c : Nat), c ≤ 1000 →
      qtask_tick_go h r c l = tickGoAll h r (l.take (1001 - c)) := by
  induction l with
  | nil => intro h r c _; simp [qtask_tick_go, tickGoAll]
  | cons p rest ih =>
    intro h r c hc
    by_cases hif : 1000 < c + 1
    · have hc1000 : c = 1000 := by omega
      subst hc1000
      have ht : 1001 - 1000 = 1 := by norm_num
      rw [ht]
      simp [qtask_tick_go, tickGoAll]
    · have ht : 1001 - c = (1000 - c) + 1 := by omega
      rw [ht, List.take_succ_cons]
      show (if 1000 < c + 1 then tickVisit h r p
            else qtask_tick_go (tickVisit h r p).1 (tickVisit h r p).2 (c + 1) rest) =
        tickGoAll (tickVisit h r p).1 (tickVisit h r p).2 (rest.take (1000 - c))
      rw [if_neg hif]
      have ht2 : 1001 - (c + 1) = 1000 - c := by omega
      rw [ih _ _ (c + 1) (by omega), ht2]

theorem tickGoAll_heap (l : List Nat) :
    ∀ (h : Nat → QTaskObj) (r : Option Nat), l.Nodup →
      ∀ p, (tickGoAll h r l).1 p = if p ∈ l then tickStep (h p) else h p := by
  induction l with
  | nil => intro h r _ p; simp [tickGoAll]
  | cons q rest ih =>
    intro h r hn p
    obtain ⟨hq, hrest⟩ := List.nodup_cons.mp hn
    have hstep : (tickGoAll h r (q :: rest)).1 =
        (tickGoAll (tickVisit h r q).1 (tickVisit h r q).2 rest).1 := rfl
    rw [hstep, ih _ _ hrest p]
    by_cases hp : p ∈ rest
    · have hpq : p ≠ q := fun he => hq (he ▸ hp)
      simp [hp, tickVisit_heap, hpq, List.mem_cons]
    · by_cases hpq : p = q
      · subst hpq
        simp [hp, tickVisit_heap]
      · simp [hp, tickVisit_heap, hpq]

theorem tickRun_cons (h : Nat → QTaskObj) (r : Option Nat) (q : Nat) (rest : List Nat) :
    tickRun h r (q :: rest) = tickRun h (if (h q).timer = 1 then some q else r) rest := rfl

theorem tickRun_congr (l : List Nat) :
    ∀ (h1 h2 : Nat → QTaskObj) (r : Option Nat), (∀ p ∈ l, h1 p = h2 p) →
      tickRun h1 r l = tickRun h2 r l := by
  induction l with
  | nil => intro h1 h2 r _; rfl
  | cons q rest ih =>
    intro h1 h2 r hagree
    rw [tickRun_cons, tickRun_cons, hagree q (by simp)]
    exact ih _ _ _ (fun p hp => hagree p (by simp [hp]))

theorem tickGoAll_run (l : List Nat) :
    ∀ (h : Nat → QTaskObj) (r : Option Nat), l.Nodup →
      (tickGoAll h r l).2 = tickRun h r l := by
  induction l with
  | nil => intro h r _; rfl
  | cons q rest ih =>
    intro h r hn
    obtain ⟨hq, hrest⟩ := List.nodup_cons.mp hn
    have hstep : (tickGoAll h r (q :: rest)).2 =
        (tickGoAll (tickVisit h r q).1 (tickVisit h r q).2 rest).2 := rfl
    rw [hstep, ih _ _ hrest, tickRun_cons, ← tickVisit_run h r q]
    exact tickRun_congr rest _ _ _ (fun p hp => by
      rw [tickVisit_heap]
      have hpq : p ≠ q := fun he => hq (he ▸ hp)
      simp [hpq])

/-- One tick-advance call over a duplicate-free active list: the lists are
untouched, the first 1001 entries take one `tickStep`, everything else is
untouched, and `run_task` becomes the last entry of the scanned prefix
whose decrement fired. -/
theorem tick_increase_spec (s : QTaskSched) (hn : s.task_list.Nodup) :
    (qtask_tick_increase s).task_list = s.task_list ∧
    (qtask_tick_increase s).suspend_list = s.suspend_list ∧
    (qtask_tick_increase s).run_task = tickRun s.heap s.run_task (s.task_list.take 1001) ∧
    ∀ p, (qtask_tick_increase s).heap p =
      if p ∈ s.task_list.take 1001 then tickStep (s.heap p) else s.heap p := by
  have htake : (s.task_list.take 1001).Nodup :=
    (List.take_sublist 1001 s.task_list).nodup hn
  have heq : qtask_tick_go s.heap s.run_task 0 s.task_list =
      tickGoAll s.heap s.run_task (s.task_list.take 1001) := by
    have h0 : (1001 : Nat) - 0 = 1001 := rfl
    rw [tick_go_eq_all s.task_list s.heap s.run_task 0 (by omega), h0]
  refine ⟨rfl, rfl, ?_, ?_⟩
  · show (qtask_tick_go s.heap s.run_task 0 s.task_list).2 = _
    rw [heq]
    exact tickGoAll_run _ _ _ htake
  · intro p
    show (qtask_tick_go s.heap s.run_task 0 s.task_list).1 p = _
    rw [heq]
    exact tickGoAll_heap _ _ _ htake p

/-- C1: during one tick-advance call over an active list within the scan
cap, every task with a positive timer is decremented; exactly when the
decrement reaches zero the task turns ready, `run_task` records it (the
last such task of the scan), and its timer is restored to its period; a
task whose timer is already zero is untouched.  A task added with period 3
is marked ready with timer reset to 3 by the third call. -/
theorem qtask_tick_per_task :
    (∀ t : QTaskObj,
      (t.timer = 0 → tickStep t = t) ∧
      (t.timer = 1 → tickStep t = { t with isready := true, timer := t.period }) ∧
      (2 ≤ t.timer → tickStep t = { t with timer := t.timer - 1 })) ∧
    (∀ s : QTaskSched, s.task_list.Nodup → s.task_list.length ≤ 1000 →
      (qtask_tick_increase s).task_list = s.task_list ∧
      (qtask_tick_increase s).suspend_list = s.suspend_list ∧
      (qtask_tick_increase s).run_task = tickRun s.heap s.run_task s.task_list ∧
      ∀ p ∈ s.task_list, (qtask_tick_increase s).heap p = tickStep (s.heap p)) ∧
    ((oneTaskSched.heap 1).period = 3 ∧ (tickTwice.heap 1).isready = false ∧
      (tickThrice.heap 1).isready = true ∧ (tickThrice.heap 1).timer = 3 ∧
      tickThrice.run_task = some 1) := by
  refine ⟨?_, ?_, by decide⟩
  · intro t
    refine ⟨fun h0 => ?_, fun h1 => ?_, fun h2 => ?_⟩
    · simp [tickStep, h0]
    · simp [tickStep, h1]
    · have ha : 0 < t.timer := by omega
      have hb : ¬ t.timer - 1 = 0 := by omega
      simp [tickStep, ha, hb]
  · intro s hn hl
    have htake : s.task_list.take 1001 = s.task_list :=
      List.take_of_length_le (by omega)
    obtain ⟨h1, h2, h3, h4⟩ := tick_increase_spec s hn
    rw [htake] at h3
    refine ⟨h1, h2, h3, fun p hp => ?_⟩
    have h5 := h4 p
    rw [htake] at h5
    rw [h5, if_pos hp]

theorem qtask_tick_per_task_witness :
    probeSched.task_list.Nodup ∧ probeSched.task_list.length ≤ 1000 ∧
    (qtask_tick_increase probeSched).heap 1 = tickStep (probeSched.heap 1) :=
  ⟨by decide, by decide,
    (qtask_tick_per_task.2.1 probeSched (by decide) (by decide)).2.2.2 1 (by decide)⟩

/-- C4 (amended): one tick-advance call over an oversized duplicate-free
active list processes exactly the first 1001 entries — one more than the
claimed 1000 — and leaves every later entry untouched. -/
theorem qtask_tick_cap :
    ∀ s : QTaskSched, s.task_list.Nodup →
      (qtask_tick_increase s).task_list = s.task_list ∧
      (∀ p ∈ s.task_list.take 1001, (qtask_tick_increase s).heap p = tickStep (s.heap p)) ∧
      (∀ p, p ∉ s.task_list.take 1001 → (qtask_tick_increase s).heap p = s.heap p) := by
  intro s hn
  obtain ⟨h1, _, _, h4⟩ := tick_increase_spec s hn
  exact ⟨h1, fun p hp => by rw [h4 p, if_pos hp], fun p hp => by rw [h4 p, if_neg hp]⟩

theorem qtask_tick_cap_witness :
    probeSched.task_list.Nodup ∧
    (qtask_tick_increase probeSched).task_list = probeSched.task_list :=
  ⟨by decide, (qtask_tick_cap probeSched (by decide)).1⟩

set_option maxRecDepth 4000 in
/-- C4 counterexample: with 1002 tasks on the active list (all with
timer 5), the 1001st entry (index 1000) is still processed by one
tick-advance call — its timer drops to 4 — refuting the claim that at most
1000 entries are processed; the 1002nd entry is untouched. -/
theorem qtask_tick_cap_counterexample :
    bigSched.task_list.length = 1002 ∧
    (bigSched.heap 1000).timer = 5 ∧
    ((qtask_tick_increase bigSched).heap 1000).timer = 4 ∧
    ((qtask_tick_increase bigSched).heap 1001).timer = 5 := by
  have hn : bigSched.task_list.Nodup := List.nodup_range 1002
  obtain ⟨_, _, _, h4⟩ := tick_increase_spec bigSched hn
  have htake : bigSched.task_list.take 1001 = List.range 1001 := by
    show (List.range 1002).take 1001 = List.range 1001
    rw [List.take_range]
    norm_num
  refine ⟨by simp [bigSched], rfl, ?_, ?_⟩
  · have h := h4 1000
    rw [htake] at h
    rw [h, if_pos (by simp [List.mem_range])]
    decide
  · have h := h4 1001
    rw [htake] at h
    rw [h, if_neg (by simp [List.mem_range])]
    rfl

/-! ## The execute pass -/

theorem exec_go_heap (l : List Nat) :
    ∀ h : Nat → QTaskObj, l.Nodup → ∀ p, (qtask_exec_go h l).1 p =
      if p ∈ l ∧ (h p).isready then
        { h p with rtime := (h p).rtick, isready := false, rtick := 0 }
      else h p := by
  induction l with
  | nil => intro h _ p; simp [qtask_exec_go]
  | cons q rest ih =>
    intro h hn p
    obtain ⟨hq, hrest⟩ := List.nodup_cons.mp hn
    by_cases hr : (h q).isready
    · have hg : (qtask_exec_go h (q :: rest)).1 =
          (qtask_exec_go
            (updateHeap h q { h q with rtime := (h q).rtick, isready := false, rtick := 0 })
            rest).1 := by
        simp [qtask_exec_go, hr]
      rw [hg, ih _ hrest p]
      by_cases hp : p ∈ rest
      · have hpq : p ≠ q := fun he => hq (he ▸ hp)
        rw [updateHeap_ne _ _ _ hpq]
        simp [hp, hpq, List.mem_cons]
      · by_cases hpq : p = q
        · subst hpq
          rw [if_neg (by simp [hp]), updateHeap_same]
          simp [hr]
        · rw [updateHeap_ne _ _ _ hpq]
          simp [hp, hpq]
    · have hg : (qtask_exec_go h (q :: rest)).1 = (qtask_exec_go h rest).1 := by
        simp [qtask_exec_go, hr]
      rw [hg, ih _ hrest p]
      by_cases hp : p ∈ rest
      · simp [hp, List.mem_cons]
      · by_cases hpq : p = q
        · subst hpq
          simp [hp, hr]
        · simp [hp, hpq]

theorem exec_go_log (l : List Nat) :
    ∀ h : Nat → QTaskObj, l.Nodup →
      (qtask_exec_go h l).2 =
        (l.filter (fun p => (h p).isready)).map (fun p => (h p).handle) := by
  induction l with
  | nil => intro h _; rfl
  | cons q rest ih =>
    intro h hn
    obtain ⟨hq, hrest⟩ := List.nodup_cons.mp hn
    by_cases hr : (h q).isready
    · have hg : (qtask_exec_go h (q :: rest)).2 = (h q).handle ::
          (qtask_exec_go
            (updateHeap h q { h q with rtime := (h q).rtick, isready := false, rtick := 0 })
            rest).2 := by
        simp [qtask_exec_go, hr]
      rw [hg, ih _ hrest, List.filter_cons_of_pos (by simpa using hr), List.map_cons]
      congr 1
      have hagree : ∀ p ∈ rest,
          updateHeap h q { h q with rtime := (h q).rtick, isready := false, rtick := 0 } p
            = h p :=
        fun p hp => updateHeap_ne _ _ _ (fun he => hq (he ▸ hp))
      rw [List.filter_congr (fun p hp => by rw [hagree p hp])]
      exact List.map_congr_left
        (fun p hp => by rw [hagree p (List.mem_of_mem_filter hp)])
    · have hg : (qtask_exec_go h (q :: rest)).2 = (qtask_exec_go h rest).2 := by
        simp [qtask_exec_go, hr]
      rw [hg, ih _ hrest, List.filter_cons_of_neg (by simpa using hr)]

/-- C7: one execute pass invokes exactly the callbacks of the ready tasks
of the active list, once each in list order; each ready task then has
`rtime` set to the accumulated `rtick`, `ready` cleared and `rtick`
zeroed, while non-ready tasks (and tasks off the active list) keep all
their fields. -/
theorem qtask_exec_spec :
    ∀ s : QTaskSched, s.task_list.Nodup →
      (qtask_exec s).1.task_list = s.task_list ∧
      (qtask_exec s).1.suspend_list = s.suspend_list ∧
      (qtask_exec s).2 =
        (s.task_list.filter (fun p => (s.heap p).isready)).map (fun p => (s.heap p).handle) ∧
      (∀ p ∈ s.task_list, (s.heap p).isready = true →
        (qtask_exec s).1.heap p =
          { s.heap p with rtime := (s.heap p).rtick, isready := false, rtick := 0 }) ∧
      (∀ p ∈ s.task_list, (s.heap p).isready = false →
        (qtask_exec s).1.heap p = s.heap p) ∧
      (∀ p, p ∉ s.task_list → (qtask_exec s).1.heap p = s.heap p) := by
  intro s hn
  have hheap : ∀ p, (qtask_exec s).1.heap p =
      if p ∈ s.task_list ∧ (s.heap p).isready then
        { s.heap p with rtime := (s.heap p).rtick, isready := false, rtick := 0 }
      else s.heap p :=
    exec_go_heap s.task_list s.heap hn
  refine ⟨rfl, rfl, exec_go_log s.task_list s.heap hn, ?_, ?_, ?_⟩
  · intro p hp hr
    rw [hheap p, if_pos ⟨hp, hr⟩]
  · intro p hp hr
    rw [hheap p, if_neg (by simp [hr])]
  · intro p hp
    rw [hheap p, if_neg (by simp [hp])]

/-! ## The timer bound -/

theorem listed_iff (s : QTaskSched) (p : Nat) :
    listed s p ↔ p ∈ s.task_list ∨ p ∈ s.suspend_list := Iff.rfl

theorem timerInv_updateHeap {s : QTaskSched} {p : Nat} {t : QTaskObj}
    (ht : t.timer ≤ t.period) (h : timerInv s) :
    timerInv { s with heap := updateHeap s.heap p t } := by
  intro q hq
  show (updateHeap s.heap p t q).timer ≤ (updateHeap s.heap p t q).period
  by_cases hqp : q = p
  · subst hqp
    rw [updateHeap_same]
    exact ht
  · rw [updateHeap_ne _ _ _ hqp]
    exact h q hq

theorem listed_of_resetAndUnlink {s : QTaskSched} {p q : Nat}
    (hq : listed (resetAndUnlink s p) q) : listed s q := by
  rcases (listed_iff _ _).1 hq with h1 | h1
  · exact Or.inl (List.mem_of_mem_erase h1)
  · exact Or.inr (List.mem_of_mem_erase h1)

theorem timerInv_resetAndUnlink {s : QTaskSched} (p : Nat) (h : timerInv s) :
    timerInv (resetAndUnlink s p) := by
  intro q hq
  have hq' : listed s q := listed_of_resetAndUnlink hq
  show ((resetAndUnlink s p).heap q).timer ≤ ((resetAndUnlink s p).heap q).period
  rw [resetAndUnlink_heap]
  by_cases hqp : q = p
  · simp [hqp]
  · simp only [if_neg hqp]
    exact h q hq'

theorem timerInv_consTask {s : QTaskSched} {p : Nat}
    (hp : (s.heap p).timer ≤ (s.heap p).period) (h : timerInv s) :
    timerInv { s with task_list := p :: s.task_list } := by
  intro q hq
  show (s.heap q).timer ≤ (s.heap q).period
  rcases (listed_iff _ _).1 hq with h1 | h1
  · rcases List.mem_cons.mp h1 with rfl | h2
    · exact hp
    · exact h q (Or.inl h2)
  · exact h q (Or.inr h1)

theorem timerInv_consSusp {s : QTaskSched} {p : Nat}
    (hp : (s.heap p).timer ≤ (s.heap p).period) (h : timerInv s) :
    timerInv { s with suspend_list := p :: s.suspend_list } := by
  intro q hq
  show (s.heap q).timer ≤ (s.heap q).period
  rcases (listed_iff _ _).1 hq with h1 | h1
  · exact h q (Or.inl h1)
  · rcases List.mem_cons.mp h1 with rfl | h2
    · exact hp
    · exact h q (Or.inr h2)

theorem tickStep_bound (t : QTaskObj) (h : t.timer ≤ t.period) :
    (tickStep t).timer ≤ (tickStep t).period := by
  unfold tickStep
  by_cases h0 : 0 < t.timer
  · by_cases h1 : t.timer - 1 = 0 <;> simp [h0, h1] <;> omega
  · simp [h0, h]

theorem qtask_add_snd (s : QTaskSched) (p : Nat) (name : List Nat) (handle tick : Nat) :
    (qtask_add s p name handle tick).2 =
      (let s0 : QTaskSched := { s with heap := updateHeap s.heap p (addInit name handle tick) }
       let s1 := if _qdtask_isexsit s0 p then resetAndUnlink s0 p else s0
       if _qtask_isexist s1 p then s1
       else { s1 with task_list := _list_insert s1.task_list p }) := by
  unfold qtask_add
  set s0 : QTaskSched := { s with heap := updateHeap s.heap p (addInit name handle tick) }
  by_cases hd : _qdtask_isexsit s0 p = true <;>
    simp [hd, apply_ite Prod.snd]

theorem qtask_del_snd (s : QTaskSched) (p : Nat) :
    (qtask_del s p).2 =
      (let s1 := if _qtask_isexist s p then resetAndUnlink s p else s
       if _qdtask_isexsit s1 p then s1
       else { s1 with suspend_list := _list_insert s1.suspend_list p }) := by
  unfold qtask_del
  by_cases he : _qtask_isexist s p = true <;>
    simp [he, apply_ite Prod.snd]

theorem timerInv_add (s : QTaskSched) (p : Nat) (name : List Nat) (handle tick : Nat)
    (h : timerInv s) : timerInv (qtask_add s p name handle tick).2 := by
  rw [qtask_add_snd]
  set s0 : QTaskSched := { s with heap := updateHeap s.heap p (addInit name handle tick) }
    with hs0
  have h0 : timerInv s0 := timerInv_updateHeap (by simp [addInit]) h
  have hpb : ∀ s1 : QTaskSched, timerInv s1 → (s1.heap p).timer ≤ (s1.heap p).period →
      timerInv (if _qtask_isexist s1 p then s1
        else { s1 with task_list := _list_insert s1.task_list p }) := by
    intro s1 h1 hp1
    by_cases he : _qtask_isexist s1 p = true
    · rw [if_pos he]
      exact h1
    · rw [if_neg he]
      exact timerInv_consTask hp1 h1
  refine hpb (if _qdtask_isexsit s0 p then resetAndUnlink s0 p else s0) ?_ ?_
  · by_cases hd : _qdtask_isexsit s0 p = true
    · rw [if_pos hd]
      exact timerInv_resetAndUnlink p h0
    · rw [if_neg hd]
      exact h0
  · by_cases hd : _qdtask_isexsit s0 p = true
    · rw [if_pos hd, resetAndUnlink_heap]
      simp
    · rw [if_neg hd]
      simp [hs0, updateHeap, addInit]

theorem timerInv_del (s : QTaskSched) (p : Nat) (h : timerInv s) (hl : listed s p) :
    timerInv (qtask_del s p).2 := by
  rw [qtask_del_snd]
  have hpb : ∀ s1 : QTaskSched, timerInv s1 → (s1.heap p).timer ≤ (s1.heap p).period →
      timerInv (if _qdtask_isexsit s1 p then s1
        else { s1 with suspend_list := _list_insert s1.suspend_list p }) := by
    intro s1 h1 hp1
    by_cases hd : _qdtask_isexsit s1 p = true
    · rw [if_pos hd]
      exact h1
    · rw [if_neg hd]
      exact timerInv_consSusp hp1 h1
  refine hpb (if _qtask_isexist s p then resetAndUnlink s p else s) ?_ ?_
  · by_cases he : _qtask_isexist s p = true
    · rw [if_pos he]
      exact timerInv_resetAndUnlink p h
    · rw [if_neg he]
      exact h
  · by_cases he : _qtask_isexist s p = true
    · rw [if_pos he, resetAndUnlink_heap]
      simp
    · rw [if_neg he]
      exact h p hl

theorem timerInv_suspendGo (s : QTaskSched) (id : Nat) :
    ∀ l : List Nat, (∀ p ∈ l, p ∈ s.task_list) → timerInv s →
      timerInv (qtask_suspend_go s id l).2 := by
  intro l
  induction l with
  | nil => intro _ h; exact h
  | cons p rest ih =>
    intro hmem h
    show timerInv (if (s.heap p).id = id then _ else qtask_suspend_go s id rest).2
    by_cases hid : (s.heap p).id = id
    · rw [if_pos hid]
      have hp : p ∈ s.task_list := hmem p (by simp)
      have hbase : ∀ s1 : QTaskSched, timerInv s1 →
          (s1.heap p).timer ≤ (s1.heap p).period →
          timerInv (if _qdtask_isexsit s1 p then ((-1 : Int), s1)
            else (0, { s1 with suspend_list := _list_insert s1.suspend_list p })).2 := by
        intro s1 h1 hp1
        by_cases hd : _qdtask_isexsit s1 p = true
        · rw [if_pos hd]; exact h1
        · rw [if_neg hd]; exact timerInv_consSusp hp1 h1
      by_cases he : _qtask_isexist s p = true
      · rw [if_pos he]
        refine hbase _ (timerInv_resetAndUnlink p h) ?_
        rw [resetAndUnlink_heap]
        simp
      · rw [if_neg he]
        exact hbase _ h (h p (Or.inl hp))
    · rw [if_neg hid]
      exact ih (fun q hq => hmem q (by simp [hq])) h

theorem timerInv_resumeGo (id : Nat) :
    ∀ (l : List Nat) (s : QTaskSched), l.Nodup → (∀ p ∈ l, p ∈ s.suspend_list) →
      timerInv s → timerInv (qtask_resume_go s id l).2 := by
  intro l
  induction l with
  | nil => intro s _ _ h; exact h
  | cons p rest ih =>
    intro s hn hmem h
    obtain ⟨hp_rest, hn_rest⟩ := List.nodup_cons.mp hn
    have hp : p ∈ s.suspend_list := hmem p (by simp)
    show timerInv (if (s.heap p).id = id then _ else qtask_resume_go s id rest).2
    by_cases hid : (s.heap p).id = id
    · rw [if_pos hid]
      have hbase : ∀ s1 : QTaskSched, timerInv s1 →
          (s1.heap p).timer ≤ (s1.heap p).period →
          (∀ q ∈ rest, q ∈ s1.suspend_list) →
          timerInv (if _qtask_isexist s1 p then qtask_resume_go s1 id rest
            else ((0 : Int), { s1 with task_list := _list_insert s1.task_list p })).2 := by
        intro s1 h1 hp1 hm1
        by_cases he : _qtask_isexist s1 p = true
        · rw [if_pos he]
          exact ih s1 hn_rest hm1 h1
        · rw [if_neg he]
          exact timerInv_consTask hp1 h1
      by_cases hd : _qdtask_isexsit s p = true
      · rw [if_pos hd]
        refine hbase _ (timerInv_resetAndUnlink p h) ?_ ?_
        · rw [resetAndUnlink_heap]
          simp
        · intro q hq
          show q ∈ s.suspend_list.erase p
          have hqp : q ≠ p := fun he' => hp_rest (he' ▸ hq)
          exact (List.mem_erase_of_ne hqp).2 (hmem q (by simp [hq]))
      · rw [if_neg hd]
        exact hbase _ h (h p (Or.inr hp)) (fun q hq => hmem q (by simp [hq]))
    · rw [if_neg hid]
      exact ih s hn_rest (fun q hq => hmem q (by simp [hq])) h

/-- C8 (amended): a task's timer is a natural count (the decrement is
guarded by `timer > 0`, so it never goes negative), and `timer ≤ period`
is preserved by add, del of a registered task, suspend, resume (over a
duplicate-free suspended list), tick-advance and execute (over a
duplicate-free active list), runtime accumulation and sleep — but NOT by
`qtask_tick_set`, which overwrites `period` without touching `timer`. -/
theorem qtask_timer_bound :
    (∀ (s : QTaskSched) (p : Nat) (name : List Nat) (handle tick : Nat),
      timerInv s → timerInv (qtask_add s p name handle tick).2) ∧
    (∀ (s : QTaskSched) (p : Nat), timerInv s → listed s p →
      timerInv (qtask_del s p).2) ∧
    (∀ (s : QTaskSched) (name : List Nat), timerInv s →
      timerInv (qtask_suspend s name).2) ∧
    (∀ (s : QTaskSched) (name : List Nat), s.suspend_list.Nodup → timerInv s →
      timerInv (qtask_resume s name).2) ∧
    (∀ s : QTaskSched, s.task_list.Nodup → timerInv s →
      timerInv (qtask_tick_increase s)) ∧
    (∀ s : QTaskSched, s.task_list.Nodup → timerInv s →
      timerInv (qtask_exec s).1) ∧
    (∀ s : QTaskSched, timerInv s → timerInv (qtask_runtime_increase s)) ∧
    (∀ (s : QTaskSched) (tick : Nat), timerInv s →
      timerInv ((qtask_sleep s tick).getD s)) := by
  refine ⟨timerInv_add, fun s p h hl => timerInv_del s p h hl,
    fun s name h => timerInv_suspendGo s (_id_calc name) s.task_list (fun _ hp => hp) h,
    fun s name hn h => timerInv_resumeGo (_id_calc name) s.suspend_list s hn (fun _ hp => hp) h,
    ?_, ?_, ?_, ?_⟩
  · intro s hn h
    obtain ⟨_, _, _, h4⟩ := tick_increase_spec s hn
    intro q hq
    rw [h4 q]
    by_cases hm : q ∈ s.task_list.take 1001
    · rw [if_pos hm]
      exact tickStep_bound _ (h q hq)
    · rw [if_neg hm]
      exact h q hq
  · intro s hn h
    have hheap : ∀ q, (qtask_exec s).1.heap q =
        if q ∈ s.task_list ∧ (s.heap q).isready then
          { s.heap q with rtime := (s.heap q).rtick, isready := false, rtick := 0 }
        else s.heap q :=
      exec_go_heap s.task_list s.heap hn
    intro q hq
    show ((qtask_exec s).1.heap q).timer ≤ ((qtask_exec s).1.heap q).period
    rw [hheap q]
    by_cases hm : q ∈ s.task_list ∧ (s.heap q).isready
    · rw [if_pos hm]
      exact h q hq
    · rw [if_neg hm]
      exact h q hq
  · intro s h q hq
    show ((qtask_runtime_increase s).heap q).timer ≤ ((qtask_runtime_increase s).heap q).period
    unfold qtask_runtime_increase
    by_cases hm : q ∈ s.task_list ∧ (s.heap q).isready = true
    · simp only [if_pos hm]
      exact h q hq
    · simp only [if_neg hm]
      exact h q hq
  · intro s tick h
    cases hr : s.run_task <;> simp [qtask_sleep, hr] <;> exact h

theorem qtask_timer_bound_witness :
    ((qtask_suspend probeSched [97]).2.heap 1).timer ≤
      ((qtask_suspend probeSched [97]).2.heap 1).period := by
  have hinv : timerInv probeSched := by
    intro p hp
    rcases (listed_iff _ _).1 hp with h1 | h1
    · have : p = 1 := by
        have h2 : probeSched.task_list = [1] := by decide
        rw [h2] at h1
        exact List.mem_singleton.mp h1
      subst this
      decide
    · have h2 : probeSched.suspend_list = [] := by decide
      rw [h2] at h1
      exact absurd h1 (List.not_mem_nil p)
  exact qtask_timer_bound.2.2.1 probeSched [97] hinv 1 (Or.inl (by decide))

/-- C8 counterexample: `qtask_tick_set` overwrites `period` only; applied
to a task with `timer = period = 5` and a new period of 2 it leaves
`timer = 5 > 2 = period`, breaking the claimed bound. -/
theorem qtask_timer_bound_counterexample :
    boundObj.timer ≤ boundObj.period ∧
    ¬ (qtask_tick_set boundObj 2).timer ≤ (qtask_tick_set boundObj 2).period := by
  decide

/-! ## Existence-check bridges and the no-match loops -/

theorem isexist_false_of {s : QTaskSched} {p : Nat}
    (h : ∀ q ∈ s.task_list, (s.heap q).id ≠ (s.heap p).id) :
    _qtask_isexist s p = false := by
  cases hb : _qtask_isexist s p
  · rfl
  · obtain ⟨q, hq, hid⟩ := (isexist_iff s p).1 hb
    exact absurd hid (h q hq)

theorem dexist_false_of {s : QTaskSched} {p : Nat}
    (h : ∀ q ∈ s.suspend_list, (s.heap q).id ≠ (s.heap p).id) :
    _qdtask_isexsit s p = false := by
  cases hb : _qdtask_isexsit s p
  · rfl
  · obtain ⟨q, hq, hid⟩ := (dexist_iff s p).1 hb
    exact absurd hid (h q hq)

theorem suspendGo_no_match (s : QTaskSched) (id : Nat) :
    ∀ l : List Nat, (∀ p ∈ l, (s.heap p).id ≠ id) →
      qtask_suspend_go s id l = (-1, s) := by
  intro l
  induction l with
  | nil => intro _; rfl
  | cons p rest ih =>
    intro h
    show (if (s.heap p).id = id then _ else qtask_suspend_go s id rest) = (-1, s)
    rw [if_neg (h p (by simp))]
    exact ih (fun q hq => h q (by simp [hq]))

theorem resumeGo_no_match (s : QTaskSched) (id : Nat) :
    ∀ l : List Nat, (∀ p ∈ l, (s.heap p).id ≠ id) →
      qtask_resume_go s id l = (-1, s) := by
  intro l
  induction l with
  | nil => intro _; rfl
  | cons p rest ih =>
    intro h
    show (if (s.heap p).id = id then _ else qtask_resume_go s id rest) = (-1, s)
    rw [if_neg (h p (by simp))]
    exact ih (fun q hq => h q (by simp [hq]))

/-- C5 (amended): resuming a task that is not on the suspended list — in
particular one that is already active — returns -1, which is the very
status returned for an unknown name, and leaves the scheduler unchanged;
symmetrically for suspending a task that is not on the active list. -/
theorem qtask_already_status :
    (∀ (s : QTaskSched) (name : List Nat),
      (∀ q ∈ s.suspend_list, (s.heap q).id ≠ _id_calc name) →
      qtask_resume s name = (-1, s)) ∧
    (∀ (s : QTaskSched) (name : List Nat),
      (∀ q ∈ s.task_list, (s.heap q).id ≠ _id_calc name) →
      qtask_suspend s name = (-1, s)) :=
  ⟨fun s name h => resumeGo_no_match s (_id_calc name) s.suspend_list h,
   fun s name h => suspendGo_no_match s (_id_calc name) s.task_list h⟩

theorem qtask_already_status_witness :
    1 ∈ oneTaskSched.task_list ∧ oneTaskSched.suspend_list = [] ∧
    qtask_resume oneTaskSched [97] = (-1, oneTaskSched) := by
  have he : oneTaskSched.suspend_list = [] := by decide
  exact ⟨by decide, he,
    qtask_already_status.1 oneTaskSched [97] (fun q hq => by
      rw [he] at hq
      exact absurd hq (List.not_mem_nil q))⟩

/-- C5 counterexample: the resume of the already-active task 1 returns -1,
exactly the status that resume returns for a name registered nowhere — the
"already" answer is not distinct from "not-found". -/
theorem qtask_already_status_counterexample :
    1 ∈ oneTaskSched.task_list ∧ (qtask_resume oneTaskSched [97]).1 = -1 ∧
    emptySched.task_list = [] ∧ emptySched.suspend_list = [] ∧
    (qtask_resume emptySched [97]).1 = -1 := by
  decide

/-- C3 (code bug): `qtask_sleep` never changes any state — whenever it
returns a state at all, that state is its input unchanged.  At the failing
input (`run_task` pointing at task 1 whose timer is 7, tick argument 5)
the call leaves the timer at 7 instead of setting it to 5; with no current
task it dereferences the null `run_task` (modelled as `none`).  The header
documentation ("changes the timer value of the currently running task")
contradicts the code, whose guard `if(!sched->run_task)` is inverted. -/
theorem qtask_sleep_dead :
    (∀ (s : QTaskSched) (tick : Nat), (qtask_sleep s tick).getD s = s) ∧
    sleepSched.run_task = some 1 ∧ (sleepSched.heap 1).timer = 7 ∧
    qtask_sleep sleepSched 5 = some sleepSched ∧
    ((qtask_sleep sleepSched 5).getD sleepSched).heap 1 = sleepSched.heap 1 ∧
    qtask_sleep { sleepSched with run_task := none } 5 = none := by
  refine ⟨?_, rfl, rfl, rfl, rfl, rfl⟩
  intro s tick
  cases h : s.run_task <;> simp [qtask_sleep, h]

/-- C6 (amended): when the id of `name` is already present on the active
list, `qtask_add` returns 1 and inserts nothing, leaving the two lists and
every other task untouched — but it has already unconditionally
re-initialised the argument task's descriptor (`ready = false`,
`timer = period = tick`, new handle, counters zeroed), so the call is not
a complete no-op on task state. -/
theorem qtask_add_already :
    ∀ (s : QTaskSched) (p : Nat) (name : List Nat) (handle tick : Nat),
      p ∉ s.suspend_list →
      (∀ q ∈ s.suspend_list, (s.heap q).id ≠ _id_calc name) →
      (p ∈ s.task_list ∨ ∃ q ∈ s.task_list, (s.heap q).id = _id_calc name) →
      qtask_add s p name handle tick =
        (1, { s with heap := updateHeap s.heap p (addInit name handle tick) }) := by
  intro s p name handle tick hps hsusp hact
  set s0 : QTaskSched := { s with heap := updateHeap s.heap p (addInit name handle tick) }
    with hs0
  have hidp : (s0.heap p).id = _id_calc name := by
    rw [hs0]
    show (updateHeap s.heap p (addInit name handle tick) p).id = _
    rw [updateHeap_same]
    rfl
  have hd : _qdtask_isexsit s0 p = false := by
    apply dexist_false_of
    intro q hq
    have hqp : q ≠ p := fun he => hps (he ▸ hq)
    have : s0.heap q = s.heap q := updateHeap_ne _ _ _ hqp
    rw [this, hidp]
    exact hsusp q hq
  have he : _qtask_isexist s0 p = true := by
    apply (isexist_iff s0 p).2
    rcases hact with hp | ⟨q, hq, hid⟩
    · exact ⟨p, hp, rfl⟩
    · refine ⟨q, hq, ?_⟩
      by_cases hqp : q = p
      · rw [hqp]
      · have : s0.heap q = s.heap q := updateHeap_ne _ _ _ hqp
        rw [this, hidp]
        exact hid
  unfold qtask_add
  rw [← hs0]
  simp [hd, he]

theorem qtask_add_already_witness :
    1 ∉ tickThrice.suspend_list ∧ 1 ∈ tickThrice.task_list ∧
    qtask_add tickThrice 1 [97] 5 3 =
      (1, { tickThrice with heap := updateHeap tickThrice.heap 1 (addInit [97] 5 3) }) := by
  have he : tickThrice.suspend_list = [] := by decide
  exact ⟨by decide, by decide,
    qtask_add_already tickThrice 1 [97] 5 3
      (by rw [he]; exact List.not_mem_nil 1)
      (fun q hq => by rw [he] at hq; exact absurd hq (List.not_mem_nil q))
      (Or.inl (by decide))⟩

/-- C6 counterexample: task 1 is active and ready (`isready = true` after
three ticks); re-registering it under its own name returns the
"already active" status 1 yet resets its `isready` field to false — the
call is not a no-op on the task's descriptor fields. -/
theorem qtask_add_already_counterexample :
    (qtask_add tickThrice 1 [97] 5 3).1 = 1 ∧
    (tickThrice.heap 1).isready = true ∧
    ((qtask_add tickThrice 1 [97] 5 3).2.heap 1).isready = false := by
  decide

/-- C10 (amended): deleting a task object that sits on neither list
inserts it into the suspended list and returns 0 — silently registering it
as suspended — provided no listed task shares its 16-bit id; but when some
suspended task shares its id, the call returns -1 and inserts nothing. -/
theorem qtask_del_unregistered :
    (∀ (s : QTaskSched) (p : Nat),
      p ∉ s.task_list → p ∉ s.suspend_list →
      (∀ q ∈ s.task_list, (s.heap q).id ≠ (s.heap p).id) →
      (∀ q ∈ s.suspend_list, (s.heap q).id ≠ (s.heap p).id) →
      qtask_del s p = (0, { s with suspend_list := p :: s.suspend_list })) ∧
    (∀ (s : QTaskSched) (p : Nat),
      (∀ q ∈ s.task_list, (s.heap q).id ≠ (s.heap p).id) →
      (∃ q ∈ s.suspend_list, (s.heap q).id = (s.heap p).id) →
      qtask_del s p = (-1, s)) := by
  constructor
  · intro s p _ _ hact hsusp
    have he : _qtask_isexist s p = false := isexist_false_of hact
    have hd : _qdtask_isexsit s p = false := dexist_false_of hsusp
    show (let s1 := if _qtask_isexist s p then resetAndUnlink s p else s
          if _qdtask_isexsit s1 p then ((-1 : Int), s1)
          else (0, { s1 with suspend_list := _list_insert s1.suspend_list p })) = _
    rw [he]
    show (if _qdtask_isexsit s p then ((-1 : Int), s)
          else (0, { s with suspend_list := _list_insert s.suspend_list p })) = _
    rw [hd]
    rfl
  · intro s p hact hsusp
    have he : _qtask_isexist s p = false := isexist_false_of hact
    have hd : _qdtask_isexsit s p = true := (dexist_iff s p).2 hsusp
    show (let s1 := if _qtask_isexist s p then resetAndUnlink s p else s
          if _qdtask_isexsit s1 p then ((-1 : Int), s1)
          else (0, { s1 with suspend_list := _list_insert s1.suspend_list p })) = _
    rw [he]
    show (if _qdtask_isexsit s p then ((-1 : Int), s)
          else (0, { s with suspend_list := _list_insert s.suspend_list p })) = _
    rw [hd]
    rfl

theorem qtask_del_unregistered_witness :
    3 ∉ emptySched.task_list ∧ 3 ∉ emptySched.suspend_list ∧
    qtask_del emptySched 3 = (0, { emptySched with suspend_list := 3 :: emptySched.suspend_list }) := by
  have ht : emptySched.task_list = [] := by decide
  have he : emptySched.suspend_list = [] := by decide
  exact ⟨by decide, by decide,
    qtask_del_unregistered.1 emptySched 3
      (by rw [ht]; exact List.not_mem_nil 3)
      (by rw [he]; exact List.not_mem_nil 3)
      (fun q hq => by rw [ht] at hq; exact absurd hq (List.not_mem_nil q))
      (fun q hq => by rw [he] at hq; exact absurd hq (List.not_mem_nil q))⟩

/-- C10 counterexample: in the reachable state `colSched5` task object 1
(registered earlier under "az") sits on neither list while the suspended
object 2 ("bY") shares its hash id; deleting object 1 then returns -1 —
not 0 — and does not insert it into the suspended list. -/
theorem qtask_del_unregistered_counterexample :
    1 ∉ colSched5.task_list ∧ 1 ∉ colSched5.suspend_list ∧
    (qtask_del colSched5 1).1 = -1 ∧
    1 ∉ (qtask_del colSched5 1).2.suspend_list ∧
    1 ∉ (qtask_del colSched5 1).2.task_list := by
  decide

theorem qtask_exec_spec_witness :
    probeSched.task_list.Nodup ∧ (probeSched.heap 1).isready = true ∧
    (qtask_exec probeSched).1.heap 1 =
      { probeSched.heap 1 with
          rtime := (probeSched.heap 1).rtick
          isready := false
          rtick := 0 } :=
  ⟨by decide, by decide,
    (qtask_exec_spec probeSched (by decide)).2.2.2.1 1 (by decide) (by decide)⟩

/-! ## The registration partition invariant -/

theorem bool_eq_false {b : Bool} (h : ¬ b = true) : b = false := by
  cases b
  · rfl
  · exact absurd rfl h

theorem nodup_move_left {A B : List Nat} (p : Nat) (h : (A ++ B).Nodup) :
    ((p :: A.erase p) ++ B.erase p).Nodup := by
  have hA : A.Nodup := h.of_append_left
  have hB : B.Nodup := h.of_append_right
  have h2 : (A.erase p ++ B.erase p).Nodup :=
    ((List.erase_sublist p A).append (List.erase_sublist p B)).nodup h
  rw [List.cons_append, List.nodup_cons]
  refine ⟨?_, h2⟩
  intro hmem
  rcases List.mem_append.mp hmem with h1 | h1
  · exact hA.not_mem_erase h1
  · exact hB.not_mem_erase h1

theorem nodup_move_right {A B : List Nat} (p : Nat) (h : (A ++ B).Nodup) :
    (A.erase p ++ p :: B.erase p).Nodup := by
  have hA : A.Nodup := h.of_append_left
  have hB : B.Nodup := h.of_append_right
  have h2 : (A.erase p ++ B.erase p).Nodup :=
    ((List.erase_sublist p A).append (List.erase_sublist p B)).nodup h
  rw [List.nodup_middle, List.nodup_cons]
  refine ⟨?_, h2⟩
  intro hmem
  rcases List.mem_append.mp hmem with h1 | h1
  · exact hA.not_mem_erase h1
  · exact hB.not_mem_erase h1

theorem idsDistinct_via {s s' : QTaskSched} {p : Nat}
    (hqid : ∀ q, q ≠ p → (s'.heap q).id = (s.heap q).id)
    (hmem : ∀ q, listed s' q → q = p ∨ listed s q)
    (hf : ∀ q, listed s q → q ≠ p → (s.heap q).id ≠ (s'.heap p).id)
    (hd : idsDistinct s) : idsDistinct s' := by
  intro a b ha hb hab
  by_cases hap : a = p <;> by_cases hbp : b = p
  · rw [hap, hbp]
  · subst hap
    rw [hqid b hbp] at hab
    rcases hmem b hb with h1 | h1
    · exact absurd h1 hbp
    · exact absurd hab.symm (hf b h1 hbp)
  · subst hbp
    rw [hqid a hap] at hab
    rcases hmem a ha with h1 | h1
    · exact absurd h1 hap
    · exact absurd hab (hf a h1 hap)
  · rw [hqid a hap, hqid b hbp] at hab
    rcases hmem a ha with h1 | h1
    · exact absurd h1 hap
    rcases hmem b hb with h2 | h2
    · exact absurd h2 hbp
    exact hd a b h1 h2 hab

/-- Moving a task from the active list onto the suspended list (the
reset-unlink-insert sequence shared by `qtask_del` and `qtask_suspend`)
preserves the registration partition. -/
theorem partition_move_to_susp (s : QTaskSched) (p : Nat)
    (hx : exclusive s) (hd : idsDistinct s) (hp : p ∈ s.task_list) :
    exclusive { resetAndUnlink s p with
        suspend_list := _list_insert (resetAndUnlink s p).suspend_list p } ∧
    idsDistinct { resetAndUnlink s p with
        suspend_list := _list_insert (resetAndUnlink s p).suspend_list p } ∧
    (∀ q, listed s q → listed { resetAndUnlink s p with
        suspend_list := _list_insert (resetAndUnlink s p).suspend_list p } q) ∧
    listed { resetAndUnlink s p with
        suspend_list := _list_insert (resetAndUnlink s p).suspend_list p } p := by
  refine ⟨nodup_move_right p hx, ?_, ?_, Or.inr (List.mem_cons_self p _)⟩
  · refine @idsDistinct_via s _ p ?_ ?_ ?_ hd
    · intro q _
      exact resetAndUnlink_id s p q
    · intro q hq
      rcases (listed_iff _ _).1 hq with h1 | h1
      · exact Or.inr (Or.inl (List.mem_of_mem_erase h1))
      · rcases List.mem_cons.mp h1 with rfl | h2
        · exact Or.inl rfl
        · exact Or.inr (Or.inr (List.mem_of_mem_erase h2))
    · intro q hq hqp
      rw [resetAndUnlink_id]
      intro hid
      exact hqp (hd q p hq (Or.inl hp) hid)
  · intro q hq
    by_cases hqp : q = p
    · subst hqp
      exact Or.inr (List.mem_cons_self q _)
    · rcases hq with h1 | h1
      · exact Or.inl ((List.mem_erase_of_ne hqp).2 h1)
      · exact Or.inr (List.mem_cons_of_mem p ((List.mem_erase_of_ne hqp).2 h1))

/-- Moving a task from the suspended list onto the active list (the
sequence shared by `qtask_add` on a suspended id and `qtask_resume`)
preserves the registration partition. -/
theorem partition_move_to_task (s : QTaskSched) (p : Nat)
    (hx : exclusive s) (hd : idsDistinct s) (hp : p ∈ s.suspend_list) :
    exclusive { resetAndUnlink s p with
        task_list := _list_insert (resetAndUnlink s p).task_list p } ∧
    idsDistinct { resetAndUnlink s p with
        task_list := _list_insert (resetAndUnlink s p).task_list p } ∧
    (∀ q, listed s q → listed { resetAndUnlink s p with
        task_list := _list_insert (resetAndUnlink s p).task_list p } q) ∧
    listed { resetAndUnlink s p with
        task_list := _list_insert (resetAndUnlink s p).task_list p } p := by
  refine ⟨nodup_move_left p hx, ?_, ?_, Or.inl (List.mem_cons_self p _)⟩
  · refine @idsDistinct_via s _ p ?_ ?_ ?_ hd
    · intro q _
      exact resetAndUnlink_id s p q
    · intro q hq
      rcases (listed_iff _ _).1 hq with h1 | h1
      · rcases List.mem_cons.mp h1 with rfl | h2
        · exact Or.inl rfl
        · exact Or.inr (Or.inl (List.mem_of_mem_erase h2))
      · exact Or.inr (Or.inr (List.mem_of_mem_erase h1))
    · intro q hq hqp
      rw [resetAndUnlink_id]
      intro hid
      exact hqp (hd q p hq (Or.inr hp) hid)
  · intro q hq
    by_cases hqp : q = p
    · subst hqp
      exact Or.inl (List.mem_cons_self q _)
    · rcases hq with h1 | h1
      · exact Or.inl (List.mem_cons_of_mem p ((List.mem_erase_of_ne hqp).2 h1))
      · exact Or.inr ((List.mem_erase_of_ne hqp).2 h1)

theorem partition_add (s : QTaskSched) (p : Nat) (name : List Nat) (handle tick : Nat)
    (hx : exclusive s) (hd : idsDistinct s)
    (hf : ∀ q, listed s q → q ≠ p → (s.heap q).id ≠ _id_calc name) :
    exclusive (qtask_add s p name handle tick).2 ∧
    idsDistinct (qtask_add s p name handle tick).2 ∧
    (∀ q, listed s q → listed (qtask_add s p name handle tick).2 q) ∧
    listed (qtask_add s p name handle tick).2 p := by
  set s0 : QTaskSched := { s with heap := updateHeap s.heap p (addInit name handle tick) }
    with hs0
  have hidp : (s0.heap p).id = _id_calc name := by
    rw [hs0]
    show (updateHeap s.heap p (addInit name handle tick) p).id = _
    rw [updateHeap_same]
    rfl
  have hidq : ∀ q, q ≠ p → (s0.heap q).id = (s.heap q).id := by
    intro q hq
    rw [hs0]
    show (updateHeap s.heap p (addInit name handle tick) q).id = _
    rw [updateHeap_ne _ _ _ hq]
  have hd0 : idsDistinct s0 := by
    refine @idsDistinct_via s s0 p hidq (fun q hq => Or.inr hq) ?_ hd
    intro q hq hqp
    rw [hidp]
    exact hf q hq hqp
  have hx0 : exclusive s0 := hx
  by_cases hdex : _qdtask_isexsit s0 p = true
  · obtain ⟨q0, hq0, hq0id⟩ := (dexist_iff s0 p).1 hdex
    have hq0' : q0 ∈ s.suspend_list := hq0
    have hq0p : q0 = p := by
      by_contra hne
      have hcol : (s.heap q0).id = _id_calc name := by
        rw [← hidq q0 hne, hq0id, hidp]
      exact absurd hcol (hf q0 (Or.inr hq0') hne)
    have hpsusp : p ∈ s.suspend_list := hq0p ▸ hq0'
    have hptask : p ∉ s.task_list := fun hmem =>
      (List.disjoint_of_nodup_append hx) hmem hpsusp
    have hie : _qtask_isexist (resetAndUnlink s0 p) p = false := by
      apply isexist_false_of
      intro q hq
      have hq' : q ∈ s.task_list := List.mem_of_mem_erase hq
      have hqp : q ≠ p := fun he => hptask (he ▸ hq')
      rw [resetAndUnlink_id, resetAndUnlink_id, hidq q hqp, hidp]
      exact hf q (Or.inl hq') hqp
    have hres : (qtask_add s p name handle tick).2 =
        { resetAndUnlink s0 p with
          task_list := _list_insert (resetAndUnlink s0 p).task_list p } := by
      rw [qtask_add_snd, ← hs0]
      simp [hdex, hie]
    rw [hres]
    exact partition_move_to_task s0 p hx0 hd0 hpsusp
  · have hpsusp : p ∉ s.suspend_list := fun hmem =>
      not_mem_of_dexist_false (bool_eq_false hdex) hmem
    by_cases hie : _qtask_isexist s0 p = true
    · have hres : (qtask_add s p name handle tick).2 = s0 := by
        rw [qtask_add_snd, ← hs0]
        simp [hdex, hie]
      rw [hres]
      obtain ⟨q0, hq0, hq0id⟩ := (isexist_iff s0 p).1 hie
      have hq0' : q0 ∈ s.task_list := hq0
      have hq0p : q0 = p := by
        by_contra hne
        have hcol : (s.heap q0).id = _id_calc name := by
          rw [← hidq q0 hne, hq0id, hidp]
        exact absurd hcol (hf q0 (Or.inl hq0') hne)
      exact ⟨hx0, hd0, fun q hq => hq, Or.inl (hq0p ▸ hq0')⟩
    · have hptask : p ∉ s.task_list := fun hmem =>
        not_mem_of_isexist_false (bool_eq_false hie) hmem
      have hres : (qtask_add s p name handle tick).2 =
          { s0 with task_list := _list_insert s0.task_list p } := by
        rw [qtask_add_snd, ← hs0]
        simp [hdex, hie]
      rw [hres]
      refine ⟨?_, ?_, ?_, Or.inl (List.mem_cons_self p _)⟩
      · show ((p :: s.task_list) ++ s.suspend_list).Nodup
        rw [List.cons_append, List.nodup_cons]
        refine ⟨?_, hx⟩
        intro hmem
        rcases List.mem_append.mp hmem with h1 | h1
        · exact hptask h1
        · exact hpsusp h1
      · refine @idsDistinct_via s _ p hidq ?_ ?_ hd
        · intro q hq
          rcases (listed_iff _ _).1 hq with h1 | h1
          · rcases List.mem_cons.mp h1 with rfl | h2
            · exact Or.inl rfl
            · exact Or.inr (Or.inl h2)
          · exact Or.inr (Or.inr h1)
        · intro q hq hqp
          rw [hidp]
          exact hf q hq hqp
      · intro q hq
        rcases hq with h1 | h1
        · exact Or.inl (List.mem_cons_of_mem p h1)
        · exact Or.inr h1

theorem partition_del (s : QTaskSched) (p : Nat)
    (hx : exclusive s) (hd : idsDistinct s) (hl : listed s p) :
    exclusive (qtask_del s p).2 ∧ idsDistinct (qtask_del s p).2 ∧
    (∀ q, listed s q → listed (qtask_del s p).2 q) ∧ listed (qtask_del s p).2 p := by
  by_cases hie : _qtask_isexist s p = true
  · obtain ⟨q0, hq0, hq0id⟩ := (isexist_iff s p).1 hie
    have hq0p : q0 = p := hd q0 p (Or.inl hq0) hl hq0id
    have hptask : p ∈ s.task_list := hq0p ▸ hq0
    have hpsusp : p ∉ s.suspend_list := fun hmem =>
      (List.disjoint_of_nodup_append hx) hptask hmem
    have hdexF : _qdtask_isexsit (resetAndUnlink s p) p = false := by
      apply dexist_false_of
      intro q hq
      have hq' : q ∈ s.suspend_list := List.mem_of_mem_erase hq
      have hqp : q ≠ p := fun he => hpsusp (he ▸ hq')
      rw [resetAndUnlink_id, resetAndUnlink_id]
      intro hid
      exact hqp (hd q p (Or.inr hq') hl hid)
    have hres : (qtask_del s p).2 =
        { resetAndUnlink s p with
          suspend_list := _list_insert (resetAndUnlink s p).suspend_list p } := by
      rw [qtask_del_snd]
      simp [hie, hdexF]
    rw [hres]
    exact partition_move_to_susp s p hx hd hptask
  · have hptask : p ∉ s.task_list := not_mem_of_isexist_false (bool_eq_false hie)
    have hpsusp : p ∈ s.suspend_list := hl.resolve_left hptask
    have hdexT : _qdtask_isexsit s p = true := dexist_of_mem hpsusp
    have hres : (qtask_del s p).2 = s := by
      rw [qtask_del_snd]
      simp [hie, hdexT]
    rw [hres]
    exact ⟨hx, hd, fun q hq => hq, hl⟩

theorem suspendGo_cons_match (s : QTaskSched) (id p : Nat) (rest : List Nat)
    (hid : (s.heap p).id = id) :
    qtask_suspend_go s id (p :: rest) =
      (let s1 := if _qtask_isexist s p then resetAndUnlink s p else s
       if _qdtask_isexsit s1 p then (-1, s1)
       else (0, { s1 with suspend_list := _list_insert s1.suspend_list p })) := by
  show (if (s.heap p).id = id then _ else _) = _
  rw [if_pos hid]

theorem suspendGo_cons_skip (s : QTaskSched) (id p : Nat) (rest : List Nat)
    (hid : ¬ (s.heap p).id = id) :
    qtask_suspend_go s id (p :: rest) = qtask_suspend_go s id rest := by
  show (if (s.heap p).id = id then _ else _) = _
  rw [if_neg hid]

theorem resumeGo_cons_match (s : QTaskSched) (id p : Nat) (rest : List Nat)
    (hid : (s.heap p).id = id) :
    qtask_resume_go s id (p :: rest) =
      (let s1 := if _qdtask_isexsit s p then resetAndUnlink s p else s
       if _qtask_isexist s1 p then qtask_resume_go s1 id rest
       else (0, { s1 with task_list := _list_insert s1.task_list p })) := by
  show (if (s.heap p).id = id then _ else _) = _
  rw [if_pos hid]

theorem resumeGo_cons_skip (s : QTaskSched) (id p : Nat) (rest : List Nat)
    (hid : ¬ (s.heap p).id = id) :
    qtask_resume_go s id (p :: rest) = qtask_resume_go s id rest := by
  show (if (s.heap p).id = id then _ else _) = _
  rw [if_neg hid]

theorem partition_suspendGo (s : QTaskSched) (id : Nat) :
    ∀ l : List Nat, (∀ p ∈ l, p ∈ s.task_list) → exclusive s → idsDistinct s →
      exclusive (qtask_suspend_go s id l).2 ∧ idsDistinct (qtask_suspend_go s id l).2 ∧
      (∀ q, listed s q → listed (qtask_suspend_go s id l).2 q) := by
  intro l
  induction l with
  | nil => intro _ hx hd; exact ⟨hx, hd, fun q hq => hq⟩
  | cons p rest ih =>
    intro hmem hx hd
    by_cases hid : (s.heap p).id = id
    · rw [suspendGo_cons_match s id p rest hid]
      have hp : p ∈ s.task_list := hmem p (by simp)
      have hie : _qtask_isexist s p = true := isexist_of_mem hp
      have hpsusp : p ∉ s.suspend_list := fun hmem2 =>
        (List.disjoint_of_nodup_append hx) hp hmem2
      have hdexF : _qdtask_isexsit (resetAndUnlink s p) p = false := by
        apply dexist_false_of
        intro q hq
        have hq' : q ∈ s.suspend_list := List.mem_of_mem_erase hq
        have hqp : q ≠ p := fun he => hpsusp (he ▸ hq')
        rw [resetAndUnlink_id, resetAndUnlink_id]
        intro hid2
        exact hqp (hd q p (Or.inr hq') (Or.inl hp) hid2)
      have hres : (let s1 := if _qtask_isexist s p then resetAndUnlink s p else s
          if _qdtask_isexsit s1 p then ((-1 : Int), s1)
          else (0, { s1 with suspend_list := _list_insert s1.suspend_list p })).2 =
          { resetAndUnlink s p with
            suspend_list := _list_insert (resetAndUnlink s p).suspend_list p } := by
        simp [hie, hdexF]
      rw [hres]
      obtain ⟨c1, c2, c3, _⟩ := partition_move_to_susp s p hx hd hp
      exact ⟨c1, c2, c3⟩
    · rw [suspendGo_cons_skip s id p rest hid]
      exact ih (fun q hq => hmem q (by simp [hq])) hx hd

theorem partition_resumeGo (s : QTaskSched) (id : Nat) :
    ∀ l : List Nat, (∀ p ∈ l, p ∈ s.suspend_list) → exclusive s → idsDistinct s →
      exclusive (qtask_resume_go s id l).2 ∧ idsDistinct (qtask_resume_go s id l).2 ∧
      (∀ q, listed s q → listed (qtask_resume_go s id l).2 q) := by
  intro l
  induction l with
  | nil => intro _ hx hd; exact ⟨hx, hd, fun q hq => hq⟩
  | cons p rest ih =>
    intro hmem hx hd
    by_cases hid : (s.heap p).id = id
    · rw [resumeGo_cons_match s id p rest hid]
      have hp : p ∈ s.suspend_list := hmem p (by simp)
      have hdexT : _qdtask_isexsit s p = true := dexist_of_mem hp
      have hptask : p ∉ s.task_list := fun hmem2 =>
        (List.disjoint_of_nodup_append hx) hmem2 hp
      have hieF : _qtask_isexist (resetAndUnlink s p) p = false := by
        apply isexist_false_of
        intro q hq
        have hq' : q ∈ s.task_list := List.mem_of_mem_erase hq
        have hqp : q ≠ p := fun he => hptask (he ▸ hq')
        rw [resetAndUnlink_id, resetAndUnlink_id]
        intro hid2
        exact hqp (hd q p (Or.inl hq') (Or.inr hp) hid2)
      have hres : (let s1 := if _qdtask_isexsit s p then resetAndUnlink s p else s
          if _qtask_isexist s1 p then qtask_resume_go s1 id rest
          else ((0 : Int), { s1 with task_list := _list_insert s1.task_list p })).2 =
          { resetAndUnlink s p with
            task_list := _list_insert (resetAndUnlink s p).task_list p } := by
        simp [hdexT, hieF]
      rw [hres]
      obtain ⟨c1, c2, c3, _⟩ := partition_move_to_task s p hx hd hp
      exact ⟨c1, c2, c3⟩
    · rw [resumeGo_cons_skip s id p rest hid]
      exact ih (fun q hq => hmem q (by simp [hq])) hx hd

/-- C2 (amended): provided the registered tasks carry pairwise distinct
16-bit ids (and, for add, the new name's id collides with no other
registered task), each of add, del-of-a-registered-object, suspend and
resume preserves the registration partition: no object ever appears twice
across the two lists, ids stay pairwise distinct, every previously
registered task object stays registered — hence in exactly one list — and
add/del leave their argument object registered.  When two registered
tasks' names hash to the same id the invariant fails on the code (see the
counterexample): a registered task can end up in neither list. -/
theorem qtask_partition :
    (∀ (s : QTaskSched) (p : Nat) (name : List Nat) (handle tick : Nat),
      exclusive s → idsDistinct s →
      (∀ q, listed s q → q ≠ p → (s.heap q).id ≠ _id_calc name) →
      exclusive (qtask_add s p name handle tick).2 ∧
      idsDistinct (qtask_add s p name handle tick).2 ∧
      (∀ q, listed s q → listed (qtask_add s p name handle tick).2 q) ∧
      listed (qtask_add s p name handle tick).2 p) ∧
    (∀ (s : QTaskSched) (p : Nat),
      exclusive s → idsDistinct s → listed s p →
      exclusive (qtask_del s p).2 ∧ idsDistinct (qtask_del s p).2 ∧
      (∀ q, listed s q → listed (qtask_del s p).2 q) ∧ listed (qtask_del s p).2 p) ∧
    (∀ (s : QTaskSched) (name : List Nat),
      exclusive s → idsDistinct s →
      exclusive (qtask_suspend s name).2 ∧ idsDistinct (qtask_suspend s name).2 ∧
      ∀ q, listed s q → listed (qtask_suspend s name).2 q) ∧
    (∀ (s : QTaskSched) (name : List Nat),
      exclusive s → idsDistinct s →
      exclusive (qtask_resume s name).2 ∧ idsDistinct (qtask_resume s name).2 ∧
      ∀ q, listed s q → listed (qtask_resume s name).2 q) :=
  ⟨partition_add,
   fun s p hx hd hl => partition_del s p hx hd hl,
   fun s name hx hd =>
     partition_suspendGo s (_id_calc name) s.task_list (fun _ hp => hp) hx hd,
   fun s name hx hd =>
     partition_resumeGo s (_id_calc name) s.suspend_list (fun _ hp => hp) hx hd⟩

theorem qtask_partition_witness :
    exclusive emptySched ∧ idsDistinct emptySched ∧
    exclusive (qtask_add emptySched 1 [97] 5 3).2 ∧
    listed (qtask_add emptySched 1 [97] 5 3).2 1 := by
  have ht : emptySched.task_list = [] := by decide
  have hs : emptySched.suspend_list = [] := by decide
  have hx : exclusive emptySched := by
    show (emptySched.task_list ++ emptySched.suspend_list).Nodup
    decide
  have hd : idsDistinct emptySched := by
    intro a b ha _ _
    rcases ha with h1 | h1
    · rw [ht] at h1
      exact absurd h1 (List.not_mem_nil a)
    · rw [hs] at h1
      exact absurd h1 (List.not_mem_nil a)
  have hf : ∀ q, listed emptySched q → q ≠ 1 →
      (emptySched.heap q).id ≠ _id_calc [97] := by
    intro q hq _
    rcases hq with h1 | h1
    · rw [ht] at h1
      exact absurd h1 (List.not_mem_nil q)
    · rw [hs] at h1
      exact absurd h1 (List.not_mem_nil q)
  obtain ⟨c1, _, _, c4⟩ := qtask_partition.1 emptySched 1 [97] 5 3 hx hd hf
  exact ⟨hx, hd, c1, c4⟩

/-- C2 counterexample: "az" and "bY" are distinct names with the same
16-bit id.  Object 1 is registered under "az" (add returns 0), deleted to
the suspended list, and object 2 is registered under "bY" (add returns 0).
In the reached state object 1 is suspended and object 2 is active with the
same id.  `qtask_resume "az"` then unlinks object 1 from the suspended
list, refuses to insert it because the active list already answers for its
id, and returns -1: the registered object 1 now sits in neither list. -/
theorem qtask_partition_counterexample :
    (qtask_add emptySched 1 nameAZ 7 3).1 = 0 ∧
    (qtask_del colSched1 1).1 = 0 ∧
    (qtask_add colSched2 2 nameBY 8 3).1 = 0 ∧
    nameAZ ≠ nameBY ∧
    (colSched3.heap 1).id = (colSched3.heap 2).id ∧
    1 ∈ colSched3.suspend_list ∧ 2 ∈ colSched3.task_list ∧
    (qtask_resume colSched3 nameAZ).1 = -1 ∧
    1 ∉ colSched4.task_list ∧ 1 ∉ colSched4.suspend_list := by
  decide

/-- C9: registering a fresh task object under a fresh name and then
suspending and resuming it by that name puts it back on the active list
with `timer = period = tick` and `ready = false`. -/
theorem qtask_roundtrip (s : QTaskSched) (p : Nat) (name : List Nat) (handle tick : Nat)
    (hnl : ¬ listed s p)
    (hf : ∀ q, listed s q → (s.heap q).id ≠ _id_calc name) :
    p ∈ ((qtask_resume ((qtask_suspend ((qtask_add s p name handle tick).2) name).2)
        name).2).task_list ∧
    (((qtask_resume ((qtask_suspend ((qtask_add s p name handle tick).2) name).2)
        name).2).heap p).timer = tick ∧
    (((qtask_resume ((qtask_suspend ((qtask_add s p name handle tick).2) name).2)
        name).2).heap p).period = tick ∧
    (((qtask_resume ((qtask_suspend ((qtask_add s p name handle tick).2) name).2)
        name).2).heap p).isready = false := by
  have hptask : p ∉ s.task_list := fun h => hnl (Or.inl h)
  have hpsusp : p ∉ s.suspend_list := fun h => hnl (Or.inr h)
  set s0 : QTaskSched := { s with heap := updateHeap s.heap p (addInit name handle tick) }
    with hs0
  have hidp : (s0.heap p).id = _id_calc name := by
    rw [hs0]
    show (updateHeap s.heap p (addInit name handle tick) p).id = _
    rw [updateHeap_same]
    rfl
  have hidq : ∀ q, q ≠ p → (s0.heap q).id = (s.heap q).id := by
    intro q hq
    rw [hs0]
    show (updateHeap s.heap p (addInit name handle tick) q).id = _
    rw [updateHeap_ne _ _ _ hq]
  -- step 1: the add inserts p at the head of the active list
  have hdexF : _qdtask_isexsit s0 p = false := by
    apply dexist_false_of
    intro q hq
    have hq' : q ∈ s.suspend_list := hq
    have hqp : q ≠ p := fun he => hpsusp (he ▸ hq')
    rw [hidq q hqp, hidp]
    exact hf q (Or.inr hq')
  have hieF : _qtask_isexist s0 p = false := by
    apply isexist_false_of
    intro q hq
    have hq' : q ∈ s.task_list := hq
    have hqp : q ≠ p := fun he => hptask (he ▸ hq')
    rw [hidq q hqp, hidp]
    exact hf q (Or.inl hq')
  have h1 : (qtask_add s p name handle tick).2 =
      { s0 with task_list := _list_insert s0.task_list p } := by
    rw [qtask_add_snd, ← hs0]
    simp [hdexF, hieF]
  rw [h1]
  set s1 : QTaskSched := { s0 with task_list := _list_insert s0.task_list p } with hs1
  have hh1 : s1.heap p = addInit name handle tick := by
    show updateHeap s.heap p (addInit name handle tick) p = _
    rw [updateHeap_same]
  have hh1q : ∀ q, q ≠ p → s1.heap q = s.heap q := by
    intro q hq
    show updateHeap s.heap p (addInit name handle tick) q = _
    rw [updateHeap_ne _ _ _ hq]
  -- step 2: the suspend finds p at the head and parks it
  have hid1 : (s1.heap p).id = _id_calc name := by
    rw [hh1]
    rfl
  have hie1 : _qtask_isexist s1 p = true :=
    isexist_of_mem (show p ∈ p :: s.task_list from List.mem_cons_self p _)
  have hdexF1 : _qdtask_isexsit (resetAndUnlink s1 p) p = false := by
    apply dexist_false_of
    intro q hq
    have hq' : q ∈ s.suspend_list := List.mem_of_mem_erase hq
    have hqp : q ≠ p := fun he => hpsusp (he ▸ hq')
    rw [resetAndUnlink_id, resetAndUnlink_id, hh1q q hqp, hid1]
    exact hf q (Or.inr hq')
  have h2 : (qtask_suspend s1 name).2 =
      { resetAndUnlink s1 p with
        suspend_list := _list_insert (resetAndUnlink s1 p).suspend_list p } := by
    show (qtask_suspend_go s1 (_id_calc name) (p :: s.task_list)).2 = _
    rw [suspendGo_cons_match s1 (_id_calc name) p s.task_list hid1]
    simp [hie1, hdexF1]
  rw [h2]
  set s2 : QTaskSched := { resetAndUnlink s1 p with
      suspend_list := _list_insert (resetAndUnlink s1 p).suspend_list p } with hs2
  have hh2 : s2.heap p = addInit name handle tick := by
    show (resetAndUnlink s1 p).heap p = _
    rw [resetAndUnlink_heap, if_pos rfl, hh1]
    rfl
  have hh2q : ∀ q, q ≠ p → s2.heap q = s.heap q := by
    intro q hq
    show (resetAndUnlink s1 p).heap q = _
    rw [resetAndUnlink_heap, if_neg hq, hh1q q hq]
  have ht2 : s2.task_list = s.task_list := by
    show (p :: s.task_list).erase p = s.task_list
    exact List.erase_cons_head p s.task_list
  have hsusp2 : s2.suspend_list = p :: s.suspend_list := by
    show p :: s.suspend_list.erase p = _
    rw [List.erase_of_not_mem hpsusp]
  -- step 3: the resume finds p at the head of the suspended list
  have hid2 : (s2.heap p).id = _id_calc name := by
    rw [hh2]
    rfl
  have hdexT2 : _qdtask_isexsit s2 p = true :=
    dexist_of_mem (show p ∈ s2.suspend_list from hsusp2 ▸ List.mem_cons_self p _)
  have hieF2 : _qtask_isexist (resetAndUnlink s2 p) p = false := by
    apply isexist_false_of
    intro q hq
    have hq' : q ∈ s2.task_list := List.mem_of_mem_erase hq
    have hq'' : q ∈ s.task_list := ht2 ▸ hq'
    have hqp : q ≠ p := fun he => hptask (he ▸ hq'')
    have e1 : ((resetAndUnlink s2 p).heap q).id = (s.heap q).id := by
      rw [resetAndUnlink_id s2 p q, hh2q q hqp]
    have e2 : ((resetAndUnlink s2 p).heap p).id = _id_calc name := by
      rw [resetAndUnlink_id s2 p p, hid2]
    rw [e1, e2]
    exact hf q (Or.inl hq'')
  have h3 : (qtask_resume s2 name).2 =
      { resetAndUnlink s2 p with
        task_list := _list_insert (resetAndUnlink s2 p).task_list p } := by
    show (qtask_resume_go s2 (_id_calc name) s2.suspend_list).2 = _
    rw [hsusp2, resumeGo_cons_match s2 (_id_calc name) p s.suspend_list hid2]
    simp [hdexT2, hieF2]
  rw [h3]
  have hh3 : ({ resetAndUnlink s2 p with
      task_list := _list_insert (resetAndUnlink s2 p).task_list p }).heap p =
      addInit name handle tick := by
    show (resetAndUnlink s2 p).heap p = _
    rw [resetAndUnlink_heap, if_pos rfl, hh2]
    rfl
  refine ⟨List.mem_cons_self p _, ?_, ?_, ?_⟩ <;> rw [hh3] <;> rfl

theorem qtask_roundtrip_witness :
    ¬ listed emptySched 1 ∧
    1 ∈ ((qtask_resume ((qtask_suspend ((qtask_add emptySched 1 [97] 5 3).2) [97]).2)
        [97]).2).task_list ∧
    (((qtask_resume ((qtask_suspend ((qtask_add emptySched 1 [97] 5 3).2) [97]).2)
        [97]).2).heap 1).timer = 3 ∧
    (((qtask_resume ((qtask_suspend ((qtask_add emptySched 1 [97] 5 3).2) [97]).2)
        [97]).2).heap 1).isready = false := by
  have ht : emptySched.task_list = [] := by decide
  have hs : emptySched.suspend_list = [] := by decide
  have hnl : ¬ listed emptySched 1 := by
    intro h
    rcases h with h1 | h1
    · rw [ht] at h1
      exact absurd h1 (List.not_mem_nil 1)
    · rw [hs] at h1
      exact absurd h1 (List.not_mem_nil 1)
  have hf : ∀ q, listed emptySched q → (emptySched.heap q).id ≠ _id_calc [97] := by
    intro q hq
    rcases hq with h1 | h1
    · rw [ht] at h1
      exact absurd h1 (List.not_mem_nil q)
    · rw [hs] at h1
      exact absurd h1 (List.not_mem_nil q)
  obtain ⟨c1, c2, _, c4⟩ := qtask_roundtrip emptySched 1 [97] 5 3 hnl hf
  exact ⟨hnl, c1, c2, c4⟩
